import Mathlib

/-!
# Verification of the WebtoonAITranslate region / canvas engine

Shallow embedding of the region data model, the editor state machine
(`src/components/ImageCanvas.tsx`), the session controller operations and the
export renderer (`src/App.tsx`), and the translation service wrapper
(`translateOcrResults`).  Numbers of the TypeScript source are modelled as
rationals (`ℚ`), fallible external collaborators as explicit parameters or
`Except` values.
-/

namespace Webtoon

/-- `TextRegion` from `src/types.ts`: a user-drawn rectangle (percentage
coordinates 0–100) plus its text payload and reading-order ordinal. -/
structure TextRegion where
  id : String
  x : ℚ
  y : ℚ
  width : ℚ
  height : ℚ
  originalText : String
  translatedText : String
  order : Nat
  deriving DecidableEq, Repr

/-- The data passed to `onAddRegion` by the canvas: a `TextRegion` without
`id` and `order` (`Omit<TextRegion, 'id' | 'order'>`). -/
structure RegionData where
  x : ℚ
  y : ℚ
  width : ℚ
  height : ℚ
  originalText : String
  translatedText : String
  deriving DecidableEq, Repr

/-- Per-image processing status of `WebtoonImage` (`src/types.ts`). -/
inductive ImgStatus where
  | idle | detecting | translating | done | error
  deriving DecidableEq, Repr

/-- `WebtoonImage` from `src/types.ts`; the browser `File` handle is not
modelled, `previewUrl` stands for the object URL.  `width`/`height` are
optional, as in the source. -/
structure WebtoonImage where
  id : String
  previewUrl : String
  regions : List TextRegion
  isProcessing : Bool
  status : ImgStatus
  width : Option ℚ
  height : Option ℚ
  deriving DecidableEq, Repr

/-- The merged working image held in `App`'s `mergedImage` state:
`{ url: string, regions: TextRegion[] }`. -/
structure MergedImage where
  url : String
  regions : List TextRegion
  deriving DecidableEq, Repr

/-- The part of `App`'s component state that the region operations touch:
`mergedImage` (nullable) and `selectedRegionId` (nullable). -/
structure AppState where
  mergedImage : Option MergedImage
  selectedRegionId : Option String
  deriving DecidableEq, Repr

/-- Renumbering pass of `removeRegion` (`src/App.tsx` line 190):
`.map((r, i) => ({ ...r, order: i + 1 }))`, with `k` the number of elements
already consumed (the running array index). -/
def renumberFrom (k : Nat) : List TextRegion → List TextRegion
  | [] => []
  | r :: t => { r with order := k + 1 } :: renumberFrom (k + 1) t

/-- List-level body of `removeRegion` (`src/App.tsx` lines 188–190): filter
the target out by `id`, then reassign `order` as the 1-based index. -/
def removeRegionList (i : String) (l : List TextRegion) : List TextRegion :=
  renumberFrom 0 (l.filter (fun r => r.id != i))

/-- `addRegion` from `src/App.tsx` (lines 172–184).  The random id generated
by `Math.random().toString(36).substr(2, 9)` is passed in as `newId`.
No-op when `mergedImage` is `null`; otherwise appends the new region with
`order = regions.length + 1` and selects it. -/
def addRegion (data : RegionData) (newId : String) (s : AppState) : AppState :=
  match s.mergedImage with
  | none => s
  | some m =>
    let newRegion : TextRegion :=
      { id := newId, x := data.x, y := data.y, width := data.width,
        height := data.height, originalText := data.originalText,
        translatedText := data.translatedText, order := m.regions.length + 1 }
    { mergedImage := some { m with regions := m.regions ++ [newRegion] },
      selectedRegionId := some newId }

/-- `removeRegion` from `src/App.tsx` (lines 186–193).  No-op when
`mergedImage` is `null`; otherwise filters the region out, renumbers the
survivors, and clears the selection. -/
def removeRegion (i : String) (s : AppState) : AppState :=
  match s.mergedImage with
  | none => s
  | some m =>
    { mergedImage := some { m with regions := removeRegionList i m.regions },
      selectedRegionId := none }

/-- An editor-session operation on the region set. -/
inductive EditorOp where
  | add (data : RegionData) (newId : String)
  | remove (i : String)

/-- Apply one editor operation to the app state. -/
def applyOp (op : EditorOp) (s : AppState) : AppState :=
  match op with
  | .add data newId => addRegion data newId s
  | .remove i => removeRegion i s

/-- Apply a sequence of editor operations left to right. -/
def applyOps (ops : List EditorOp) (s : AppState) : AppState :=
  ops.foldl (fun s op => applyOp op s) s

/-- The state right after `mergeImagesOnly` succeeds: a merged image with an
empty region set and no selection. -/
def initMerged (url : String) : AppState :=
  { mergedImage := some { url := url, regions := [] }, selectedRegionId := none }

/-- The region list of an app state (empty when no merged image exists). -/
def regionsOf (s : AppState) : List TextRegion :=
  match s.mergedImage with
  | none => []
  | some m => m.regions

/-- Forget a region's `order` field (for stating order-independent facts). -/
def eraseOrder (r : TextRegion) : TextRegion :=
  { r with order := 0 }

/-- The pending rectangle drawn during a drag
(`currentRect : { x, y, w, h }` in `src/components/ImageCanvas.tsx`). -/
structure PendingRect where
  x : ℚ
  y : ℚ
  w : ℚ
  h : ℚ
  deriving DecidableEq, Repr

/-- The drawing state of `ImageCanvas`: `isDrawing`, `startPos`,
`currentRect` (`src/components/ImageCanvas.tsx` lines 26–28). -/
structure CanvasState where
  isDrawing : Bool
  startPos : Option (ℚ × ℚ)
  currentRect : Option PendingRect
  deriving DecidableEq, Repr

/-- The closed point-in-rectangle test of `handleMouseDown`
(`src/components/ImageCanvas.tsx` lines 37–39):
`x >= r.x && x <= r.x + r.width && y >= r.y && y <= r.y + r.height`. -/
def containsPt (r : TextRegion) (px py : ℚ) : Bool :=
  (r.x ≤ px) && (px ≤ r.x + r.width) && (r.y ≤ py) && (py ≤ r.y + r.height)

/-- Stable insertion of a region into a list already sorted by descending
`order` (helper for modelling the stable JS sort
`[...regions].sort((a, b) => b.order - a.order)`). -/
def insertDesc (r : TextRegion) : List TextRegion → List TextRegion
  | [] => [r]
  | a :: t => if r.order < a.order then a :: insertDesc r t else r :: a :: t

/-- A stable sort by descending `order`, modelling
`[...regions].sort((a, b) => b.order - a.order)` in `handleMouseDown`. -/
def sortDesc : List TextRegion → List TextRegion
  | [] => []
  | x :: t => insertDesc x (sortDesc t)

/-- The canvas state entered when a drawing gesture starts at `(px, py)`:
`setIsDrawing(true); setStartPos({x, y}); setCurrentRect({x, y, w: 0, h: 0})`. -/
def drawingAt (px py : ℚ) : CanvasState :=
  { isDrawing := true, startPos := some (px, py),
    currentRect := some { x := px, y := py, w := 0, h := 0 } }

/-- `handleMouseDown` from `src/components/ImageCanvas.tsx` (lines 29–50),
taking the already-converted percentage position `(px, py)`.  Returns the
selection emitted through `onSelectRegion` (`some id` on a hit, `none` for a
cleared selection) and the new drawing state. -/
def handleMouseDown (regions : List TextRegion) (px py : ℚ) (s : CanvasState) :
    Option String × CanvasState :=
  match (sortDesc regions).find? (fun r => containsPt r px py) with
  | some r => (some r.id, s)
  | none => (none, drawingAt px py)

/-- `handleMouseUp` from `src/components/ImageCanvas.tsx` (lines 66–81).
Returns the region data passed to `onAddRegion` (if any) together with the
cleared drawing state.  The commit condition is
`isDrawing && currentRect && currentRect.w > 0.05 && currentRect.h > 0.05`. -/
def handleMouseUp (s : CanvasState) : Option RegionData × CanvasState :=
  let committed : Option RegionData :=
    match s.currentRect with
    | some c =>
      if s.isDrawing = true ∧ c.w > 1/20 ∧ c.h > 1/20 then
        some { x := c.x, y := c.y, width := c.w, height := c.h,
               originalText := "", translatedText := "" }
      else none
    | none => none
  (committed, { isDrawing := false, startPos := none, currentRect := none })

/-- Percent → pixel conversion used by `downloadFinal` (lines 208–211) and
`runOcrOnSelectedRegions` (lines 113–116): `(p / 100) * dimension`. -/
def pctToPx (p dim : ℚ) : ℚ :=
  p / 100 * dim

/-- The inverse conversion, pixel → percent: `pixel / dimension * 100`. -/
def pxToPct (px dim : ℚ) : ℚ :=
  px / dim * 100

/-- A region's absolute pixel rectangle `(rx, ry, rw, rh)` at raster
resolution `W × H`, as computed in `downloadFinal` and
`runOcrOnSelectedRegions`. -/
def regionToPx (r : TextRegion) (W H : ℚ) : ℚ × ℚ × ℚ × ℚ :=
  (pctToPx r.x W, pctToPx r.y H, pctToPx r.width W, pctToPx r.height H)

/-- A source image's effective width, `img.width || 0` (`src/App.tsx`
line 70). -/
def imgWidth (i : WebtoonImage) : ℚ :=
  i.width.getD 0

/-- A source image's effective height, `img.height || 0` (`src/App.tsx`
line 71). -/
def imgHeight (i : WebtoonImage) : ℚ :=
  i.height.getD 0

/-- `Math.max(...)` over a list of numbers; the empty case is guarded by the
caller (`mergeImagesOnly` returns before computing it). -/
def listMax : List ℚ → ℚ
  | [] => 0
  | a :: t => t.foldl max a

/-- The `drawImage` calls of `mergeImagesOnly`'s loop (lines 76–83), each
recorded as `(x, y, w, h) = (0, currentY, width, height)`, with `currentY`
accumulating the heights of the images already drawn. -/
def drawLoop : List WebtoonImage → ℚ → List (ℚ × ℚ × ℚ × ℚ)
  | [], _ => []
  | i :: t, y => (0, y, imgWidth i, imgHeight i) :: drawLoop t (y + imgHeight i)

/-- The outcome of `mergeImagesOnly`: the canvas dimensions and the draw
calls issued. -/
structure MergeResult where
  width : ℚ
  height : ℚ
  draws : List (ℚ × ℚ × ℚ × ℚ)
  deriving DecidableEq, Repr

/-- `mergeImagesOnly` from `src/App.tsx` (lines 61–90): no-op on an empty
image sequence; otherwise a canvas of width `Math.max` of the widths and
height the sum of the heights, each image drawn at `x = 0` under the
previous ones. -/
def mergeImagesOnly (images : List WebtoonImage) : Option MergeResult :=
  if images.length = 0 then none
  else
    some { width := listMax (images.map imgWidth),
           height := (images.map imgHeight).sum,
           draws := drawLoop images 0 }

/-- The display text of a region in `downloadFinal` (line 222):
`r.translatedText || r.originalText` (an empty string is falsy). -/
def displayText (r : TextRegion) : String :=
  if r.translatedText = "" then r.originalText else r.translatedText

/-- A canvas drawing command of the export renderer: the white box fill or
one rendered line of text. -/
inductive DrawCmd where
  | fillRect (x y w h : ℚ)
  | fillText (s : String) (x y : ℚ)
  deriving DecidableEq, Repr

/-- The word-wrap loop of `downloadFinal` (lines 225–236): `n` is the index
of the next word, `line` the line accumulated so far; a line is closed when
the measured test line exceeds the limit and `n > 0`.  `measure` stands for
`ctx.measureText(·).width`. -/
def wrapLoop (measure : String → ℚ) (limit : ℚ) :
    List String → Nat → String → List String
  | [], _, line => [line]
  | w :: ws, n, line =>
    let testLine := line ++ w ++ " "
    if limit < measure testLine ∧ 0 < n then
      line :: wrapLoop measure limit ws (n + 1) (w ++ " ")
    else
      wrapLoop measure limit ws (n + 1) testLine

/-- The full word-wrap of `downloadFinal`, starting from an empty line and
word index 0, ending with `lines.push(line)`. -/
def wrapWords (measure : String → ℚ) (limit : ℚ) (words : List String) :
    List String :=
  wrapLoop measure limit words 0 ""

/-- Concatenation of a list of strings (for stating that no word is ever
dropped by the wrap). -/
def strConcat : List String → String
  | [] => ""
  | s :: t => s ++ strConcat t

/-- The per-region body of `downloadFinal` (lines 206–245) as the list of
draw commands it issues: the white box fill always, then — only when the
display text is non-empty — one centred `fillText` per wrapped line. -/
def renderRegion (measure : String → ℚ) (W H : ℚ) (r : TextRegion) :
    List DrawCmd :=
  let rx := pctToPx r.x W
  let ry := pctToPx r.y H
  let rw := pctToPx r.width W
  let rh := pctToPx r.height H
  let fontSize := max 12 (rh * (15 / 100))
  let text := displayText r
  if text = "" then [DrawCmd.fillRect rx ry rw rh]
  else
    let lines := wrapWords measure (rw * (85 / 100)) (text.splitOn " ")
    let lineHeight := fontSize * (12 / 10)
    let startY := ry + rh / 2 - ((lines.length : ℚ) - 1) * lineHeight / 2
    DrawCmd.fillRect rx ry rw rh ::
      lines.enum.map (fun p =>
        DrawCmd.fillText p.2 (rx + rw / 2) (startY + (p.1 : ℚ) * lineHeight))

/-- One entry of the translation result array `{ id, translatedText }`. -/
structure TransResult where
  id : String
  translatedText : String
  deriving DecidableEq, Repr

/-- The result application of `runAiTranslation` (`src/App.tsx` lines
149–152): each region takes the `translatedText` of the first result with a
matching `id`, or is left unchanged when none matches. -/
def applyTranslations (translations : List TransResult)
    (regions : List TextRegion) : List TextRegion :=
  regions.map fun r =>
    match translations.find? (fun t => t.id == r.id) with
    | some t => { r with translatedText := t.translatedText }
    | none => r

/-- One OCR entry sent to the translation service (`OcrInput` in
`src/services/geminiService.ts`). -/
structure OcrInput where
  id : String
  originalText : String
  deriving DecidableEq, Repr

/-- A JSON value, the dynamic result of `JSON.parse`. -/
inductive Json where
  | null
  | bool (b : Bool)
  | num (q : ℚ)
  | str (s : String)
  | arr (items : List Json)
  | obj (fields : List (String × Json))

/-- `translateOcrResults` from `src/services/geminiService.ts` (lines
13–66).  External collaborators are explicit: `parse` models `JSON.parse`
(`none` = parse throws), `svc` models the awaited `generateContent` call
(`Except.error` = it throws, otherwise the optional `response.text`).  The
body: empty input → `[]`; missing API key → `[]`; inside the `try`, the
response text is trimmed and defaulted to `"[]"` when absent or empty,
then parsed; any thrown error is caught and degraded to `[]`. -/
def translateOcrResults (parse : String → Option Json) (apiKey : String)
    (svc : Except String (Option String)) (ocrData : List OcrInput) : Json :=
  if ocrData.length = 0 then Json.arr []
  else if apiKey = "" then Json.arr []
  else
    match svc with
    | .error _ => Json.arr []
    | .ok text =>
      let t := (text.map String.trim).getD ""
      let jsonStr := if t = "" then "[]" else t
      match parse jsonStr with
      | some j => j
      | none => Json.arr []

/-- Test fixture: a 10×10-percent region at the origin with order 1. -/
def rgA : TextRegion :=
  { id := "a", x := 0, y := 0, width := 10, height := 10,
    originalText := "", translatedText := "", order := 1 }

/-- Test fixture: the same bounds as `rgA` with id `b` and order 2. -/
def rgB : TextRegion :=
  { id := "b", x := 0, y := 0, width := 10, height := 10,
    originalText := "", translatedText := "", order := 2 }

/-- Test fixture: the idle canvas state (no drag in progress). -/
def idleCanvas : CanvasState :=
  { isDrawing := false, startPos := none, currentRect := none }

/-- Test fixture: a pending 2×3 percentage-point rectangle at (1, 1). -/
def pending23 : PendingRect :=
  { x := 1, y := 1, w := 2, h := 3 }

/-- Test fixture: a canvas state mid-drag holding `pending23`. -/
def dragCanvas : CanvasState :=
  { isDrawing := true, startPos := some (1, 1), currentRect := some pending23 }

/-- Test fixture: a 600×800 uploaded page. -/
def imgP1 : WebtoonImage :=
  { id := "p1", previewUrl := "u1", regions := [], isProcessing := false,
    status := ImgStatus.idle, width := some 600, height := some 800 }

/-- Test fixture: a 500×600 uploaded page. -/
def imgP2 : WebtoonImage :=
  { id := "p2", previewUrl := "u2", regions := [], isProcessing := false,
    status := ImgStatus.idle, width := some 500, height := some 600 }

/-- Test fixture: a region whose OCR and translation never ran (both text
fields empty). -/
def rgEmpty : TextRegion :=
  { id := "e", x := 10, y := 10, width := 20, height := 10,
    originalText := "", translatedText := "", order := 1 }

/-- Test fixture: a text measure assigning each string its length. -/
def lenMeasure (s : String) : ℚ :=
  (s.length : ℚ)

/-- Test fixture: a parser accepting only the literal `"[]"`. -/
def parseFix (s : String) : Option Json :=
  if s = "[]" then some (Json.arr []) else none

/-- Test fixture: a translation result for id `a`. -/
def trOk : TransResult :=
  { id := "a", translatedText := "ok" }

/-- Test fixture: a region with id `a` carrying a prior translation. -/
def rgOld : TextRegion :=
  { id := "a", x := 0, y := 0, width := 10, height := 10,
    originalText := "orig", translatedText := "old", order := 1 }

end Webtoon

namespace Webtoon

theorem renumberFrom_map_order (l : List TextRegion) :
    ∀ k, (renumberFrom k l).map (·.order) = List.range' (k + 1) l.length := by
  induction l with
  | nil => intro k; rfl
  | cons r t ih =>
    intro k
    simp [renumberFrom, List.range'_succ, ih]

theorem renumberFrom_length (l : List TextRegion) :
    ∀ k, (renumberFrom k l).length = l.length := by
  induction l with
  | nil => intro k; rfl
  | cons r t ih => intro k; simp [renumberFrom, ih]

theorem renumberFrom_map_eraseOrder (l : List TextRegion) :
    ∀ k, (renumberFrom k l).map eraseOrder = l.map eraseOrder := by
  induction l with
  | nil => intro k; rfl
  | cons r t ih =>
    intro k
    simp [renumberFrom, ih, eraseOrder]

/-- The dense-order invariant: the regions' `order` values, read in list
order, are exactly `1, 2, …, length`. -/
def DenseOrder (s : AppState) : Prop :=
  (regionsOf s).map (·.order) = List.range' 1 (regionsOf s).length

theorem denseOrder_applyOp (op : EditorOp) (s : AppState) (h : DenseOrder s) :
    DenseOrder (applyOp op s) := by
  cases op with
  | add data newId =>
    cases hm : s.mergedImage with
    | none =>
      simpa [DenseOrder, applyOp, addRegion, hm] using h
    | some m =>
      have hr : regionsOf s = m.regions := by simp [regionsOf, hm]
      unfold DenseOrder at h
      rw [hr] at h
      simp only [DenseOrder, applyOp, addRegion, hm, regionsOf]
      rw [List.map_append, h]
      simp [List.range'_concat, Nat.add_comm]
  | remove i =>
    cases hm : s.mergedImage with
    | none =>
      simpa [DenseOrder, applyOp, removeRegion, hm] using h
    | some m =>
      simp only [DenseOrder, applyOp, removeRegion, hm, regionsOf,
        removeRegionList]
      rw [renumberFrom_map_order, renumberFrom_length]

theorem denseOrder_applyOps (ops : List EditorOp) :
    ∀ s : AppState, DenseOrder s → DenseOrder (applyOps ops s) := by
  induction ops with
  | nil => intro s h; exact h
  | cons op t ih =>
    intro s h
    exact ih (applyOp op s) (denseOrder_applyOp op s h)

theorem mem_insertDesc {a r : TextRegion} {l : List TextRegion} :
    a ∈ insertDesc r l ↔ a = r ∨ a ∈ l := by
  induction l with
  | nil => simp [insertDesc]
  | cons b t ih =>
    by_cases h : r.order < b.order
    · simp only [insertDesc, if_pos h, List.mem_cons, ih]
      tauto
    · simp only [insertDesc, if_neg h, List.mem_cons]

theorem mem_sortDesc {a : TextRegion} {l : List TextRegion} :
    a ∈ sortDesc l ↔ a ∈ l := by
  induction l with
  | nil => simp [sortDesc]
  | cons b t ih => simp [sortDesc, mem_insertDesc, ih]

theorem pairwise_insertDesc {r : TextRegion} {l : List TextRegion}
    (h : l.Pairwise (fun a b => b.order ≤ a.order)) :
    (insertDesc r l).Pairwise (fun a b => b.order ≤ a.order) := by
  induction l with
  | nil => simp [insertDesc]
  | cons b t ih =>
    rcases List.pairwise_cons.mp h with ⟨hb, ht⟩
    by_cases hlt : r.order < b.order
    · rw [insertDesc, if_pos hlt]
      refine List.pairwise_cons.mpr ⟨?_, ih ht⟩
      intro a ha
      rcases mem_insertDesc.mp ha with rfl | ha
      · exact Nat.le_of_lt hlt
      · exact hb a ha
    · rw [insertDesc, if_neg hlt]
      refine List.pairwise_cons.mpr ⟨?_, h⟩
      intro a ha
      rcases List.mem_cons.mp ha with rfl | ha
      · exact Nat.le_of_not_lt hlt
      · exact Nat.le_trans (hb a ha) (Nat.le_of_not_lt hlt)

theorem pairwise_sortDesc (l : List TextRegion) :
    (sortDesc l).Pairwise (fun a b => b.order ≤ a.order) := by
  induction l with
  | nil => simp [sortDesc]
  | cons b t ih => exact pairwise_insertDesc ih

theorem find?_pairwise_max {p : TextRegion → Bool} {l : List TextRegion}
    {rr : TextRegion} (hs : l.Pairwise (fun a b => b.order ≤ a.order))
    (hf : l.find? p = some rr) :
    ∀ x ∈ l, p x = true → x.order ≤ rr.order := by
  induction l with
  | nil => simp at hf
  | cons a t ih =>
    rcases List.pairwise_cons.mp hs with ⟨ha, ht⟩
    by_cases hpa : p a = true
    · rw [List.find?_cons_of_pos _ hpa] at hf
      injection hf with hf
      subst hf
      intro x hx hpx
      rcases List.mem_cons.mp hx with rfl | hx
      · exact Nat.le_refl _
      · exact ha x hx
    · rw [List.find?_cons_of_neg _ hpa] at hf
      intro x hx hpx
      rcases List.mem_cons.mp hx with rfl | hx
      · exact absurd hpx hpa
      · exact ih ht hf x hx hpx

/-- C1: for every sequence of add/remove operations starting from an empty
region set, the surviving regions' `order` values (read in their stored
order) are exactly the dense sequence `1, 2, …, M` with `M` the surviving
count — no duplicates, no gaps; moreover removal keeps the surviving
regions' relative order and all their other fields, renumbering only the
`order` field to the new 1-based index. -/
theorem order_dense_after_ops (ops : List EditorOp) (url : String) :
    ((regionsOf (applyOps ops (initMerged url))).map (·.order)
      = List.range' 1 (regionsOf (applyOps ops (initMerged url))).length)
    ∧ ∀ (l : List TextRegion) (i : String),
        (removeRegionList i l).map eraseOrder
          = (l.filter (fun r => r.id != i)).map eraseOrder := by
  constructor
  · exact denseOrder_applyOps ops (initMerged url)
      (by simp [DenseOrder, initMerged, regionsOf])
  · intro l i
    exact renumberFrom_map_eraseOrder _ 0

/-- C10: `removeRegion` clears the selection unconditionally whenever a
merged image exists, even when the removed id is not the selected region and
even when it matches no region at all. -/
theorem removeRegion_clears_selection (s : AppState) (m : MergedImage)
    (i : String) (h : s.mergedImage = some m) :
    (removeRegion i s).selectedRegionId = none := by
  simp [removeRegion, h]

/-- Witness for C10: removing an id that matches no region, while a
different region is selected, still clears the selection. -/
theorem removeRegion_clears_selection_witness :
    (removeRegion "zzz"
      { mergedImage := some { url := "u", regions :=
          [{ id := "abc", x := 0, y := 0, width := 10, height := 10,
             originalText := "", translatedText := "", order := 1 }] },
        selectedRegionId := some "abc" }).selectedRegionId = none :=
  removeRegion_clears_selection _
    { url := "u", regions :=
        [{ id := "abc", x := 0, y := 0, width := 10, height := 10,
           originalText := "", translatedText := "", order := 1 }] }
    "zzz" rfl

/-- C3: on pointer-up during a drag (`isDrawing` with a pending rectangle),
a pending rectangle with width ≤ 0.05 or height ≤ 0.05 is discarded (no
region data emitted); one with both dimensions > 0.05 is committed with
exactly the drawn bounds and empty text fields; in both cases the drawing
flag, anchor and pending rectangle are cleared. -/
theorem mouseUp_commit_or_discard (s : CanvasState) (c : PendingRect)
    (hd : s.isDrawing = true) (hc : s.currentRect = some c) :
    ((c.w ≤ 1/20 ∨ c.h ≤ 1/20) → (handleMouseUp s).1 = none)
    ∧ (1/20 < c.w → 1/20 < c.h →
        (handleMouseUp s).1
          = some { x := c.x, y := c.y, width := c.w, height := c.h,
                   originalText := "", translatedText := "" })
    ∧ (handleMouseUp s).2
        = { isDrawing := false, startPos := none, currentRect := none } := by
  refine ⟨?_, ?_, rfl⟩
  · intro h
    have hcond : ¬(s.isDrawing = true ∧ c.w > 1/20 ∧ c.h > 1/20) := by
      rintro ⟨-, h1, h2⟩
      rcases h with h | h
      · exact absurd h1 (not_lt.mpr h)
      · exact absurd h2 (not_lt.mpr h)
    simp only [handleMouseUp, hc]
    rw [if_neg hcond]
  · intro h1 h2
    have hcond : s.isDrawing = true ∧ c.w > 1/20 ∧ c.h > 1/20 := ⟨hd, h1, h2⟩
    simp only [handleMouseUp, hc]
    rw [if_pos hcond]

/-- Witness for C3: a 2×3 percentage-point pending rectangle is committed
with exactly the drawn bounds and empty texts. -/
theorem mouseUp_commit_or_discard_witness :
    (handleMouseUp dragCanvas).1
      = some { x := 1, y := 1, width := 2, height := 3,
               originalText := "", translatedText := "" } :=
  (mouseUp_commit_or_discard dragCanvas pending23 rfl rfl).2.1
    (by norm_num [pending23]) (by norm_num [pending23])

/-- C4: on pointer-down at `(px, py)`, hit-testing uses the closed
point-in-rectangle test over the regions sorted by descending `order`: if
any region contains the point, a containing region of maximal `order` is
selected and the drawing state is untouched (no transition to Drawing); if
no region contains the point, the selection is cleared and Drawing begins
at `(px, py)` with a zero-size pending rectangle. -/
theorem mouseDown_hit_test (regions : List TextRegion) (px py : ℚ)
    (s : CanvasState) :
    (∀ r ∈ regions, containsPt r px py = true →
      ∃ rr ∈ regions, containsPt rr px py = true ∧ r.order ≤ rr.order ∧
        handleMouseDown regions px py s = (some rr.id, s))
    ∧ ((∀ r ∈ regions, containsPt r px py = false) →
        handleMouseDown regions px py s = (none, drawingAt px py)) := by
  constructor
  · intro r hr hc
    cases hf : (sortDesc regions).find? (fun r => containsPt r px py) with
    | none =>
      exact absurd hc (List.find?_eq_none.mp hf r (mem_sortDesc.mpr hr))
    | some rr =>
      refine ⟨rr, mem_sortDesc.mp (List.mem_of_find?_eq_some hf),
        by simpa using List.find?_some hf, ?_, ?_⟩
      · exact find?_pairwise_max (pairwise_sortDesc regions) hf r
          (mem_sortDesc.mpr hr) hc
      · simp [handleMouseDown, hf]
  · intro hall
    have hf : (sortDesc regions).find? (fun r => containsPt r px py) = none := by
      apply List.find?_eq_none.mpr
      intro x hx
      simp [hall x (mem_sortDesc.mp hx)]
    simp [handleMouseDown, hf]

/-- Witness for C4: two identical overlapping boxes with orders 1 and 2 —
the point (5,5) inside both selects the one with order 2; a point outside
the only region starts Drawing there. -/
theorem mouseDown_hit_test_witness :
    (handleMouseDown [rgA, rgB] 5 5 idleCanvas = (some "b", idleCanvas))
    ∧ (handleMouseDown [rgA] 50 50 idleCanvas = (none, drawingAt 50 50)) := by
  constructor
  · obtain ⟨rr, hmem, hcont, hord, heq⟩ :=
      (mouseDown_hit_test [rgA, rgB] 5 5 idleCanvas).1 rgB
        (by simp) (by norm_num [containsPt, rgB])
    have hrr : rr = rgA ∨ rr = rgB := by simpa using hmem
    rcases hrr with rfl | rfl
    · exact absurd hord (by norm_num [rgA, rgB])
    · exact heq
  · exact (mouseDown_hit_test _ 50 50 _).2 (by
      intro r hr
      simp only [List.mem_singleton] at hr
      subst hr
      norm_num [containsPt, rgA])

theorem foldl_max_le (t : List ℚ) :
    ∀ a : ℚ, a ≤ t.foldl max a ∧ ∀ x ∈ t, x ≤ t.foldl max a := by
  induction t with
  | nil => intro a; exact ⟨le_refl a, by simp⟩
  | cons b t' ih =>
    intro a
    simp only [List.foldl_cons]
    have h := ih (max a b)
    refine ⟨le_trans (le_max_left a b) h.1, ?_⟩
    intro x hx
    rcases List.mem_cons.mp hx with rfl | hx
    · exact le_trans (le_max_right a x) h.1
    · exact h.2 x hx

theorem foldl_max_mem (t : List ℚ) :
    ∀ a : ℚ, t.foldl max a = a ∨ t.foldl max a ∈ t := by
  induction t with
  | nil => intro a; exact Or.inl rfl
  | cons b t' ih =>
    intro a
    simp only [List.foldl_cons]
    rcases ih (max a b) with h | h
    · rcases max_choice a b with hm | hm
      · exact Or.inl (by rw [h, hm])
      · exact Or.inr (by rw [h, hm]; exact List.mem_cons_self b t')
    · exact Or.inr (List.mem_cons_of_mem b h)

theorem drawLoop_length (l : List WebtoonImage) :
    ∀ y : ℚ, (drawLoop l y).length = l.length := by
  induction l with
  | nil => intro y; rfl
  | cons i t ih => intro y; simp [drawLoop, ih]

theorem drawLoop_getElem? (l : List WebtoonImage) :
    ∀ (y : ℚ) (k : Nat) (im : WebtoonImage), l[k]? = some im →
      (drawLoop l y)[k]?
        = some (0, y + ((l.take k).map imgHeight).sum, imgWidth im,
            imgHeight im) := by
  induction l with
  | nil => intro y k im h; simp at h
  | cons i t ih =>
    intro y k im h
    cases k with
    | zero =>
      simp only [List.getElem?_cons_zero, Option.some.injEq] at h
      subst h
      simp [drawLoop]
    | succ k' =>
      simp only [List.getElem?_cons_succ] at h
      have := ih (y + imgHeight i) k' im h
      simp only [drawLoop, List.getElem?_cons_succ]
      rw [this]
      simp [add_assoc]

/-- C5: `mergeImagesOnly` on an empty sequence is a no-op; on a non-empty
sequence it produces a canvas whose width is the maximum of the input
widths and whose height is the sum of the input heights, drawing image `k`
at `x = 0`, `y =` sum of the heights of the prior images, at its own width
and height. -/
theorem merge_canvas_dims :
    (mergeImagesOnly [] = none) ∧
    ∀ images : List WebtoonImage, images ≠ [] →
      ∃ res, mergeImagesOnly images = some res ∧
        res.height = (images.map imgHeight).sum ∧
        res.width ∈ images.map imgWidth ∧
        (∀ w ∈ images.map imgWidth, w ≤ res.width) ∧
        res.draws.length = images.length ∧
        (∀ (k : Nat) (im : WebtoonImage), images[k]? = some im →
          res.draws[k]? = some (0, ((images.take k).map imgHeight).sum,
            imgWidth im, imgHeight im)) := by
  refine ⟨rfl, ?_⟩
  intro images hne
  cases images with
  | nil => exact absurd rfl hne
  | cons a t =>
    refine ⟨{ width := listMax ((a :: t).map imgWidth),
              height := ((a :: t).map imgHeight).sum,
              draws := drawLoop (a :: t) 0 },
      by simp [mergeImagesOnly], rfl, ?_, ?_, ?_, ?_⟩
    · show listMax ((a :: t).map imgWidth) ∈ (a :: t).map imgWidth
      simp only [List.map_cons, listMax]
      rcases foldl_max_mem (t.map imgWidth) (imgWidth a) with h | h
      · rw [h]; exact List.mem_cons_self _ _
      · exact List.mem_cons_of_mem _ h
    · show ∀ w ∈ (a :: t).map imgWidth, w ≤ listMax ((a :: t).map imgWidth)
      intro w hw
      simp only [List.map_cons, listMax]
      simp only [List.map_cons, List.mem_cons] at hw
      rcases hw with rfl | hw
      · exact (foldl_max_le (t.map imgWidth) (imgWidth a)).1
      · exact (foldl_max_le (t.map imgWidth) (imgWidth a)).2 w hw
    · show (drawLoop (a :: t) 0).length = (a :: t).length
      exact drawLoop_length (a :: t) 0
    · intro k im hk
      have := drawLoop_getElem? (a :: t) 0 k im hk
      simpa using this

/-- Witness for C5: merging the spec's scenario pages (600×800 and 500×600)
yields a 600×1400 canvas. -/
theorem merge_canvas_dims_witness :
    (mergeImagesOnly [imgP1, imgP2]).map (fun r => (r.width, r.height))
      = some (600, 1400) := by
  obtain ⟨res, hm, hh, hwmem, hwle, -, -⟩ :=
    merge_canvas_dims.2 [imgP1, imgP2] (by simp)
  rw [hm]
  have hmem2 : res.width = 600 ∨ res.width = 500 := by
    simpa [imgWidth, imgP1, imgP2] using hwmem
  have h600 : (600 : ℚ) ≤ res.width := by
    refine hwle 600 ?_
    simp [imgWidth, imgP1, imgP2]
  have hw : res.width = 600 := by
    rcases hmem2 with h | h
    · exact h
    · rw [h] at h600; norm_num at h600
  have hh' : res.height = 1400 := by
    rw [hh]; norm_num [imgHeight, imgP1, imgP2]
  simp [hw, hh']

/-- C7: converting a region's percentage coordinates to absolute pixels at
any positive resolution `W × H` and back reproduces the original
percentages exactly (the embedding uses exact rational arithmetic). -/
theorem pct_px_roundtrip (r : TextRegion) (W H : ℚ) (hW : 0 < W)
    (hH : 0 < H) :
    (pxToPct (regionToPx r W H).1 W,
     pxToPct (regionToPx r W H).2.1 H,
     pxToPct (regionToPx r W H).2.2.1 W,
     pxToPct (regionToPx r W H).2.2.2 H) = (r.x, r.y, r.width, r.height) := by
  have hW' : W ≠ 0 := ne_of_gt hW
  have hH' : H ≠ 0 := ne_of_gt hH
  simp only [regionToPx, pctToPx, pxToPct, Prod.mk.injEq]
  refine ⟨?_, ?_, ?_, ?_⟩ <;> field_simp <;> ring

/-- Witness for C7: round-trip of a concrete region at 600×1400. -/
theorem pct_px_roundtrip_witness :
    (pxToPct (regionToPx rgEmpty 600 1400).1 600,
     pxToPct (regionToPx rgEmpty 600 1400).2.1 1400,
     pxToPct (regionToPx rgEmpty 600 1400).2.2.1 600,
     pxToPct (regionToPx rgEmpty 600 1400).2.2.2 1400)
      = (rgEmpty.x, rgEmpty.y, rgEmpty.width, rgEmpty.height) :=
  pct_px_roundtrip rgEmpty 600 1400 (by norm_num) (by norm_num)

/-- C8: applying translation results matches by region `id`: the region
list keeps its length; a region whose id has a match takes the matched
result's `translatedText` and keeps every other field; a region whose id
has no match is left entirely unchanged. -/
theorem translation_applied_by_id (ts : List TransResult)
    (rs : List TextRegion) :
    (applyTranslations ts rs).length = rs.length ∧
    ∀ (k : Nat) (r r' : TextRegion), rs[k]? = some r →
      (applyTranslations ts rs)[k]? = some r' →
      (r'.id = r.id ∧ r'.x = r.x ∧ r'.y = r.y ∧ r'.width = r.width ∧
        r'.height = r.height ∧ r'.originalText = r.originalText ∧
        r'.order = r.order) ∧
      ((∀ t ∈ ts, t.id ≠ r.id) → r' = r) ∧
      (∀ t : TransResult, ts.find? (fun u => u.id == r.id) = some t →
        r'.translatedText = t.translatedText) := by
  refine ⟨by simp [applyTranslations], ?_⟩
  intro k r r' hr hr'
  rw [applyTranslations, List.getElem?_map, hr] at hr'
  simp only [Option.map_some', Option.some.injEq] at hr'
  cases hfind : ts.find? (fun u => u.id == r.id) with
  | none =>
    simp only [hfind] at hr'
    subst hr'
    refine ⟨⟨rfl, rfl, rfl, rfl, rfl, rfl, rfl⟩, fun _ => rfl, ?_⟩
    intro t ht
    exact absurd ht (by simp)
  | some t0 =>
    simp only [hfind] at hr'
    subst hr'
    refine ⟨⟨rfl, rfl, rfl, rfl, rfl, rfl, rfl⟩, ?_, ?_⟩
    · intro hnone
      have hmem : t0 ∈ ts := List.mem_of_find?_eq_some hfind
      have hpred : (t0.id == r.id) = true := by
        simpa using List.find?_some hfind
      exact absurd (by simpa using hpred) (hnone t0 hmem)
    · intro t ht
      injection ht with ht
      subst ht
      rfl

/-- Witness for C8: one result with id `a` replaces the matching region's
prior translation `old` by `ok`; list length is preserved. -/
theorem translation_applied_by_id_witness :
    (applyTranslations [trOk] [rgOld]).length = 1 ∧
    ({ rgOld with translatedText := "ok" } : TextRegion).translatedText
      = trOk.translatedText := by
  refine ⟨(translation_applied_by_id [trOk] [rgOld]).1, ?_⟩
  exact ((translation_applied_by_id [trOk] [rgOld]).2 0 rgOld
    { rgOld with translatedText := "ok" } rfl rfl).2.2 trOk rfl

/-- C9: `translateOcrResults` degrades to the empty result array in every
failure case — empty input, missing API key, a throwing service call, an
absent or whitespace response text, and a malformed (unparsable) response —
rather than propagating an exception (the embedding is a total function:
the `catch` branch is the `Json.arr []` fallback). -/
theorem translate_failure_degrades (parse : String → Option Json)
    (apiKey : String) (svc : Except String (Option String))
    (ocrData : List OcrInput) (hp : parse "[]" = some (Json.arr [])) :
    (ocrData = [] →
      translateOcrResults parse apiKey svc ocrData = Json.arr []) ∧
    (apiKey = "" →
      translateOcrResults parse apiKey svc ocrData = Json.arr []) ∧
    (∀ e, svc = Except.error e →
      translateOcrResults parse apiKey svc ocrData = Json.arr []) ∧
    (∀ t, svc = Except.ok t → (t.map String.trim).getD "" = "" →
      translateOcrResults parse apiKey svc ocrData = Json.arr []) ∧
    (∀ str, svc = Except.ok (some str) → str.trim ≠ "" →
      parse str.trim = none →
      translateOcrResults parse apiKey svc ocrData = Json.arr []) := by
  by_cases h0 : ocrData.length = 0
  · simp [translateOcrResults, h0]
  · by_cases hk : apiKey = ""
    · simp [translateOcrResults, h0, hk]
    · refine ⟨?_, fun h => absurd h hk, ?_, ?_, ?_⟩
      · intro h
        exact absurd (by simp [h]) h0
      · intro e he
        subst he
        simp [translateOcrResults, h0, hk]
      · intro t ht htrim
        subst ht
        simp [translateOcrResults, h0, hk, htrim, hp]
      · intro str hs htne hpn
        subst hs
        simp [translateOcrResults, h0, hk, htne, hpn]

/-- Witness for C9: a throwing service call degrades to the empty array. -/
theorem translate_failure_degrades_witness :
    translateOcrResults parseFix "key" (Except.error "boom")
      [{ id := "r1", originalText := "hi" }] = Json.arr [] :=
  (translate_failure_degrades parseFix "key" (Except.error "boom")
      [{ id := "r1", originalText := "hi" }] (by simp [parseFix])).2.2.1
    "boom" rfl

/-- Counterexample to C2 as stated: a region whose display text is empty is
NOT skipped entirely — the export renderer still paints the white box over
its bounds (the `fillRect` precedes the empty-text check in
`downloadFinal`). -/
theorem export_empty_region_box_painted :
    displayText rgEmpty = "" ∧
    renderRegion lenMeasure 100 100 rgEmpty = [DrawCmd.fillRect 10 10 20 10] := by
  refine ⟨rfl, ?_⟩
  norm_num [renderRegion, displayText, rgEmpty, pctToPx]

/-- C2 (amended): for a region whose display text (translated, falling back
to original) is empty, the text rendering is skipped silently — no
`fillText` is issued and no error raised — but the white box is still
painted over the region's bounds. -/
theorem export_empty_region_text_skipped (measure : String → ℚ) (W H : ℚ)
    (r : TextRegion) (h : displayText r = "") :
    renderRegion measure W H r
      = [DrawCmd.fillRect (pctToPx r.x W) (pctToPx r.y H)
          (pctToPx r.width W) (pctToPx r.height H)] := by
  simp [renderRegion, h]

/-- Witness for the amended C2 at a concrete empty region. -/
theorem export_empty_region_text_skipped_witness :
    renderRegion lenMeasure 100 100 rgEmpty
      = [DrawCmd.fillRect (pctToPx 10 100) (pctToPx 10 100)
          (pctToPx 20 100) (pctToPx 10 100)] :=
  export_empty_region_text_skipped lenMeasure 100 100 rgEmpty rfl

theorem strConcat_wrapLoop (measure : String → ℚ) (limit : ℚ) :
    ∀ (ws : List String) (n : Nat) (line : String),
      strConcat (wrapLoop measure limit ws n line)
        = line ++ strConcat (ws.map (· ++ " ")) := by
  intro ws
  induction ws with
  | nil => intro n line; rfl
  | cons w ws' ih =>
    intro n line
    by_cases hc : limit < measure (line ++ w ++ " ") ∧ 0 < n
    · simp only [wrapLoop, if_pos hc, strConcat, List.map_cons]
      rw [ih]
    · simp only [wrapLoop, if_neg hc, List.map_cons]
      rw [ih]
      simp [strConcat, String.append_assoc]

theorem wrapLoop_head_overflow (measure : String → ℚ) (limit : ℚ)
    (hmono : ∀ s t, measure s ≤ measure (s ++ t)) :
    ∀ (ws : List String) (n : Nat) (line : String), 0 < n →
      limit < measure line →
      (wrapLoop measure limit ws n line).head? = some line := by
  intro ws
  induction ws with
  | nil => intro n line _ _; rfl
  | cons w ws' ih =>
    intro n line hn hlt
    have h1 : measure line ≤ measure (line ++ w ++ " ") :=
      le_trans (hmono line w) (hmono (line ++ w) " ")
    have hcond : limit < measure (line ++ w ++ " ") ∧ 0 < n :=
      ⟨lt_of_lt_of_le hlt h1, hn⟩
    simp only [wrapLoop]
    rw [if_pos hcond]
    rfl

/-- C6: the export word-wrap never drops a word — the concatenation of the
produced lines is exactly the concatenation of the words, each followed by
the separator space — and under any monotone text measure, a first word
that alone already exceeds the line limit still opens the output on its own
line. -/
theorem wrap_preserves_words (measure : String → ℚ) (limit : ℚ)
    (w : String) (ws : List String) :
    strConcat (wrapWords measure limit (w :: ws))
      = strConcat ((w :: ws).map (· ++ " "))
    ∧ ((∀ s t, measure s ≤ measure (s ++ t)) →
        limit < measure (w ++ " ") →
        (wrapWords measure limit (w :: ws)).head? = some (w ++ " ")) := by
  constructor
  · have h := strConcat_wrapLoop measure limit (w :: ws) 0 ""
    exact h
  · intro hmono hover
    show (wrapLoop measure limit (w :: ws) 0 "").head? = some (w ++ " ")
    have hc : ¬(limit < measure ("" ++ w ++ " ") ∧ 0 < 0) := by simp
    simp only [wrapLoop, if_neg hc]
    exact wrapLoop_head_overflow measure limit hmono ws 1 ("" ++ w ++ " ")
      Nat.one_pos hover

/-- Witness for C6: with a length measure and limit 2, the word `hello`
alone exceeds the limit and still opens the wrap as its own line. -/
theorem wrap_preserves_words_witness :
    (wrapWords lenMeasure 2 ["hello", "a"]).head? = some "hello " := by
  refine (wrap_preserves_words lenMeasure 2 "hello" ["a"]).2 ?_ ?_
  · intro s t
    simp only [lenMeasure, String.length_append, Nat.cast_add]
    linarith [Nat.cast_nonneg (α := ℚ) t.length]
  · show (2 : ℚ) < lenMeasure ("hello" ++ " ")
    have h6 : ("hello" ++ " ").length = 6 := rfl
    rw [lenMeasure, h6]
    norm_num

end Webtoon
